import Mathlib

/-!
Verification of the ALNS engine of `u-metaheur` (`src/alns/config.rs`,
`src/alns/runner.rs`).

Modelling conventions:
* Rust `f64` values are modelled as rationals (`ℚ`); the one place where the
  code computes a transcendental function (`exp` in the simulated-annealing
  acceptance probability) is modelled separately over `ℝ` with `Real.exp`.
* The pseudo-random generator and the caller-supplied `initial_solution`,
  `cost`, `destroy` and `repair` implementations are opaque to the engine, so
  the run loop is modelled over an adversarial per-iteration input stream
  (`IterInput`): the two roulette draws, the candidate cost produced by the
  destroy/repair/cost pipeline, and the Boolean outcome of the
  simulated-annealing comparison `u < accept_prob`.  Solutions themselves are
  opaque caller data; the model tracks their costs.
* Rust panics (`expect`, the empty-range panic of `random_range`, and the
  remainder-by-zero panic) are modelled as `Except.error` with the panic
  message.
-/

namespace UMetaheur

/-- Model of `AlnsConfig` (src/alns/config.rs, lines 37-83).  `f64` fields are
rationals, `usize` fields are `Nat`. -/
structure AlnsConfig where
  max_iterations : Nat
  segment_length : Nat
  score_new_best : ℚ
  score_improved : ℚ
  score_accepted : ℚ
  reaction_factor : ℚ
  min_weight : ℚ
  min_destroy_degree : ℚ
  max_destroy_degree : ℚ
  initial_temperature : ℚ
  cooling_rate : ℚ
  min_temperature : ℚ
  seed : Option Nat
deriving DecidableEq, Repr

namespace AlnsConfig

/-- Model of `impl Default for AlnsConfig` (config.rs lines 85-103); the
decimal literals are read as exact rationals. -/
def default : AlnsConfig where
  max_iterations := 10000
  segment_length := 100
  score_new_best := 33
  score_improved := 9
  score_accepted := 3
  reaction_factor := 1/10
  min_weight := 1/100
  min_destroy_degree := 1/10
  max_destroy_degree := 2/5
  initial_temperature := 100
  cooling_rate := 9995/10000
  min_temperature := 1/100
  seed := none

/-- Model of `AlnsConfig::with_segment_length` (config.rs lines 111-114):
the argument is clamped to at least 1. -/
def with_segment_length (c : AlnsConfig) (n : Nat) : AlnsConfig :=
  { c with segment_length := max n 1 }

/-- Model of `AlnsConfig::validate` (config.rs lines 147-173). -/
def validate (c : AlnsConfig) : Except String Unit :=
  if c.max_iterations = 0 then
    .error "max_iterations must be positive"
  else if c.reaction_factor ≤ 0 ∨ 1 < c.reaction_factor then
    .error ("reaction_factor must be in (0, 1], got " ++ toString c.reaction_factor)
  else if c.cooling_rate ≤ 0 ∨ 1 ≤ c.cooling_rate then
    .error ("cooling_rate must be in (0, 1), got " ++ toString c.cooling_rate)
  else if c.initial_temperature ≤ 0 then
    .error "initial_temperature must be positive"
  else if c.min_temperature ≤ 0 then
    .error "min_temperature must be positive"
  else if c.max_destroy_degree < c.min_destroy_degree then
    .error "min_destroy_degree must be <= max_destroy_degree"
  else
    .ok ()

end AlnsConfig

/-- Model of `OperatorStats` (runner.rs lines 42-47). -/
structure OperatorStats where
  weight : ℚ
  segment_score : ℚ
  segment_uses : Nat
deriving DecidableEq, Repr

namespace OperatorStats

/-- Model of `OperatorStats::new` (runner.rs lines 50-56). -/
def new : OperatorStats where
  weight := 1
  segment_score := 0
  segment_uses := 0

/-- Model of `OperatorStats::record` (runner.rs lines 58-61). -/
def record (s : OperatorStats) (score : ℚ) : OperatorStats :=
  { s with
    segment_score := s.segment_score + score
    segment_uses := s.segment_uses + 1 }

/-- Model of `OperatorStats::update_weight` (runner.rs lines 70-78). -/
def update_weight (s : OperatorStats) (reaction_factor min_weight : ℚ) : OperatorStats :=
  if 0 < s.segment_uses then
    let avg_score := s.segment_score / (s.segment_uses : ℚ)
    { weight := max (s.weight * (1 - reaction_factor) + avg_score * reaction_factor) min_weight
      segment_score := 0
      segment_uses := 0 }
  else
    { s with segment_score := 0, segment_uses := 0 }

end OperatorStats

/-- Model of the pseudo-random generator threaded through `roulette_select`:
a stream of unit-interval draws together with a cursor. -/
structure Rng where
  stream : Nat → ℚ
  pos : Nat

/-- Model of rand's `rng.random_range(lo..hi)` on floats: the next unit draw
scaled into the interval, consuming one position of the stream. -/
def Rng.randomRange (r : Rng) (lo hi : ℚ) : ℚ × Rng :=
  (lo + (hi - lo) * r.stream r.pos, { r with pos := r.pos + 1 })

/-- Sum of operator weights, `weights.iter().map(|s| s.weight).sum()`
(runner.rs line 83). -/
def totalWeight (stats : List OperatorStats) : ℚ :=
  (stats.map (·.weight)).sum

/-- The cumulative-subtraction loop of `roulette_select` (runner.rs lines
88-95): subtract weights from the roll until it drops to `≤ 0`, returning the
fallback index (`weights.len() - 1`) when it never does. -/
def rouletteGo : ℚ → Nat → List OperatorStats → Nat → Nat
  | _, _, [], fallback => fallback
  | roll, i, s :: rest, fallback =>
    if roll - s.weight ≤ 0 then i else rouletteGo (roll - s.weight) (i + 1) rest fallback

/-- The index computed by `roulette_select` as a pure function of the drawn
roll (runner.rs lines 82-96). -/
def rouletteIndex (stats : List OperatorStats) (roll : ℚ) : Nat :=
  if totalWeight stats ≤ 0 ∨ stats = [] then 0
  else rouletteGo roll 0 stats (stats.length - 1)

/-- Model of `roulette_select` (runner.rs lines 82-96) including its use of
the generator: in the degenerate cases it returns index 0 without drawing;
otherwise it draws once from `[0, total)` and runs the cumulative loop. -/
def roulette_select (stats : List OperatorStats) (rng : Rng) : Nat × Rng :=
  if totalWeight stats ≤ 0 ∨ stats = [] then (0, rng)
  else
    let drawn := rng.randomRange 0 (totalWeight stats)
    (rouletteIndex stats drawn.1, drawn.2)

/-- The per-iteration inputs of the loop body that come from outside the
engine state: the two roulette draws (the values `rng.random_range(0.0..total)`
would produce), the candidate cost computed by the caller's
destroy → repair → cost pipeline (runner.rs lines 184-189), and the Boolean
outcome of the simulated-annealing comparison
`rng.random_range(0.0..1.0) < accept_prob` (runner.rs line 209).  The
acceptance probability itself is modelled exactly in `accept_prob` below. -/
structure IterInput where
  rollD : ℚ
  rollR : ℚ
  candidateCost : ℚ
  saAccept : Bool

/-- The mutable state of `run_with_cancel` (runner.rs lines 151-169), with the
opaque solutions `current`/`best` represented by their costs. -/
structure LoopState where
  currentCost : ℚ
  bestCost : ℚ
  destroy_stats : List OperatorStats
  repair_stats : List OperatorStats
  temperature : ℚ
  improvements : Nat
  cancelled : Bool
  cost_history : List ℚ
deriving DecidableEq, Repr

/-- The `accepted` component of the three-tier acceptance decision
(runner.rs lines 192-214). -/
def tierAccepted (inp : IterInput) (st : LoopState) : Bool :=
  if inp.candidateCost < st.bestCost then true
  else if inp.candidateCost < st.currentCost then true
  else inp.saAccept

/-- The `score` component of the three-tier acceptance decision
(runner.rs lines 192-214). -/
def tierScore (cfg : AlnsConfig) (inp : IterInput) (st : LoopState) : ℚ :=
  if inp.candidateCost < st.bestCost then cfg.score_new_best
  else if inp.candidateCost < st.currentCost then cfg.score_improved
  else if inp.saAccept then cfg.score_accepted else 0

/-- `stats[idx].record(score)` (runner.rs lines 222-223): the single entry at
`idx` accumulates the score, the others are untouched. -/
def recordAt : List OperatorStats → Nat → ℚ → List OperatorStats
  | [], _, _ => []
  | s :: rest, 0, score => s.record score :: rest
  | s :: rest, n + 1, score => s :: recordAt rest n score

/-- The destroy-pool statistics after step 6 of the iteration. -/
def recordedDestroy (cfg : AlnsConfig) (inp : IterInput) (st : LoopState) : List OperatorStats :=
  recordAt st.destroy_stats (rouletteIndex st.destroy_stats inp.rollD) (tierScore cfg inp st)

/-- The repair-pool statistics after step 6 of the iteration. -/
def recordedRepair (cfg : AlnsConfig) (inp : IterInput) (st : LoopState) : List OperatorStats :=
  recordAt st.repair_stats (rouletteIndex st.repair_stats inp.rollR) (tierScore cfg inp st)

/-- Panic message of rand's `random_range` on an empty range
(runner.rs line 184 when `min_destroy_degree >= max_destroy_degree`). -/
def emptyRangeMsg : String := "cannot sample empty range"

/-- Panic message of `%` with a zero divisor (runner.rs line 229 when
`segment_length == 0`). -/
def divisorZeroMsg : String := "attempt to calculate the remainder with a divisor of zero"

/-- The state left by one non-panicking iteration of the loop body of
`run_with_cancel` (runner.rs lines 179-241, after the cancellation poll):
acceptance and best promotion (lines 192-219), operator recording (lines
222-223), cooling (line 226), the end-of-segment weight update (lines
229-236), and the history sample (lines 239-241).  `iteration` is the
0-indexed loop counter. -/
def stepResult (cfg : AlnsConfig) (inp : IterInput) (iteration : Nat) (st : LoopState) :
    LoopState :=
  let best_cost' := if inp.candidateCost < st.bestCost then inp.candidateCost else st.bestCost
  { currentCost := if tierAccepted inp st then inp.candidateCost else st.currentCost
    bestCost := best_cost'
    destroy_stats :=
      if (iteration + 1) % cfg.segment_length = 0 then
        (recordedDestroy cfg inp st).map
          (fun s => s.update_weight cfg.reaction_factor cfg.min_weight)
      else recordedDestroy cfg inp st
    repair_stats :=
      if (iteration + 1) % cfg.segment_length = 0 then
        (recordedRepair cfg inp st).map
          (fun s => s.update_weight cfg.reaction_factor cfg.min_weight)
      else recordedRepair cfg inp st
    temperature := max (st.temperature * cfg.cooling_rate) cfg.min_temperature
    improvements :=
      if inp.candidateCost < st.bestCost then st.improvements + 1 else st.improvements
    cancelled := st.cancelled
    cost_history :=
      if (iteration + 1) % (max cfg.segment_length 1) = 0 then st.cost_history ++ [best_cost']
      else st.cost_history }

/-- One iteration of the loop body of `run_with_cancel`, with its two
possible panics modelled as `Except.error`: the empty-range panic of the
destroy-degree draw (runner.rs line 184, hit whenever
`min_destroy_degree >= max_destroy_degree`) and the remainder-by-zero panic
of the end-of-segment check (runner.rs line 229, hit whenever
`segment_length == 0`). -/
def stepIter (cfg : AlnsConfig) (inp : IterInput) (iteration : Nat) (st : LoopState) :
    Except String LoopState :=
  if cfg.min_destroy_degree < cfg.max_destroy_degree then
    if cfg.segment_length = 0 then .error divisorZeroMsg
    else .ok (stepResult cfg inp iteration st)
  else .error emptyRangeMsg

/-- The iteration loop `for iteration in 0..config.max_iterations`
(runner.rs lines 171-242): `fuel` iterations remain, `i` is the current
0-indexed counter, and `cancel i` is the value the cancellation flag is
observed to hold at the top of iteration `i`. -/
def runIters (cfg : AlnsConfig) (oracle : Nat → IterInput) (cancel : Nat → Bool) :
    Nat → Nat → LoopState → Except String LoopState
  | 0, _, st => .ok st
  | fuel + 1, i, st =>
    if cancel i then .ok { st with cancelled := true }
    else
      match stepIter cfg (oracle i) i st with
      | .error e => .error e
      | .ok st' => runIters cfg oracle cancel fuel (i + 1) st'

/-- Model of `AlnsResult` (runner.rs lines 11-39), with the opaque best
solution dropped and costs as rationals. -/
structure AlnsResult where
  best_cost : ℚ
  iterations : Nat
  improvements : Nat
  final_temperature : ℚ
  cancelled : Bool
  destroy_weights : List ℚ
  repair_weights : List ℚ
  cost_history : List ℚ
deriving DecidableEq, Repr

/-- The final conditional history push (runner.rs lines 245-250):
`cost_history.last().is_none_or(|&last| (last - best_cost).abs() > 1e-15)`. -/
def needFinalPush (hist : List ℚ) (best_cost : ℚ) : Bool :=
  match hist.getLast? with
  | none => true
  | some last => decide ((1 : ℚ) / 10 ^ 15 < |last - best_cost|)

/-- The state entering the loop (runner.rs lines 151-169): current and best
at the initial solution's cost, fresh statistics for every operator, the
configured initial temperature, and the history seeded with the initial best
cost. -/
def initState (cfg : AlnsConfig) (nDestroy nRepair : Nat) (initialCost : ℚ) : LoopState where
  currentCost := initialCost
  bestCost := initialCost
  destroy_stats := List.replicate nDestroy OperatorStats.new
  repair_stats := List.replicate nRepair OperatorStats.new
  temperature := cfg.initial_temperature
  improvements := 0
  cancelled := false
  cost_history := [initialCost]

/-- The history after the conditional final entry (runner.rs lines 244-250). -/
def finalHistory (hist : List ℚ) (best_cost : ℚ) : List ℚ :=
  if needFinalPush hist best_cost then hist ++ [best_cost] else hist

/-- The `AlnsResult` assembled from the final loop state (runner.rs lines
244-266). -/
def mkResult (cfg : AlnsConfig) (stF : LoopState) : AlnsResult :=
  let hist := finalHistory stF.cost_history stF.bestCost
  { best_cost := stF.bestCost
    iterations :=
      if stF.cancelled then (hist.length - 1) * max cfg.segment_length 1
      else cfg.max_iterations
    improvements := stF.improvements
    final_temperature := stF.temperature
    cancelled := stF.cancelled
    destroy_weights := stF.destroy_stats.map (·.weight)
    repair_weights := stF.repair_stats.map (·.weight)
    cost_history := hist }

/-- Model of `AlnsRunner::run_with_cancel` (runner.rs lines 124-267).
`nDestroy`/`nRepair` are the sizes of the caller's operator slices,
`initialCost` the cost of the caller's initial solution, `oracle` the
per-iteration external inputs, and `cancel` the observed cancellation flag.
The `expect`/`assert!` panics on lines 136-144 are `Except.error`. -/
def run_with_cancel (cfg : AlnsConfig) (nDestroy nRepair : Nat) (initialCost : ℚ)
    (oracle : Nat → IterInput) (cancel : Nat → Bool) : Except String AlnsResult :=
  match cfg.validate with
  | .error e => .error ("invalid AlnsConfig: " ++ e)
  | .ok _ =>
    if nDestroy = 0 then .error "at least one destroy operator required"
    else if nRepair = 0 then .error "at least one repair operator required"
    else
      match runIters cfg oracle cancel cfg.max_iterations 0
          (initState cfg nDestroy nRepair initialCost) with
      | .error e => .error e
      | .ok stF => .ok (mkResult cfg stF)

/-- Model of `AlnsRunner::run` (runner.rs lines 109-121): `run_with_cancel`
with no cancellation token, so the flag is never observed set. -/
def run (cfg : AlnsConfig) (nDestroy nRepair : Nat) (initialCost : ℚ)
    (oracle : Nat → IterInput) : Except String AlnsResult :=
  run_with_cancel cfg nDestroy nRepair initialCost oracle (fun _ => false)

/-- The data that the deterministic generator `create_rng(seed)` and the
deterministic caller-supplied problem and operators jointly determine for a
given seed: the initial solution's cost and the whole per-iteration input
trace. -/
structure SeededInputs where
  initialCost : ℚ
  oracle : Nat → IterInput

/-- `run_with_cancel` with the seed handling of runner.rs lines 146-149 made
explicit: a seeded run derives every external input from `config.seed`, while
an unseeded run derives them from ambient entropy (`rand::random()`). -/
def runSeeded (seedFn : Nat → SeededInputs) (cfg : AlnsConfig) (nDestroy nRepair : Nat)
    (cancel : Nat → Bool) (entropy : Nat) : Except String AlnsResult :=
  let seed := match cfg.seed with
    | some s => s
    | none => entropy
  run_with_cancel cfg nDestroy nRepair (seedFn seed).initialCost (seedFn seed).oracle cancel

/-- The simulated-annealing acceptance probability (runner.rs lines 203-208)
over the reals: `exp(-delta / temperature)` for positive temperature, 0
otherwise. -/
noncomputable def accept_prob (delta temperature : ℝ) : ℝ :=
  if 0 < temperature then Real.exp (-delta / temperature) else 0

/-- The pure acceptance decision of runner.rs lines 192-214 over the reals:
given the three configured scores, the costs, the temperature and the uniform
draw `u`, produce `(accepted, score)`. -/
noncomputable def acceptanceDecision (score_new_best score_improved score_accepted : ℝ)
    (best_cost current_cost candidate_cost temperature u : ℝ) : Bool × ℝ :=
  if candidate_cost < best_cost then (true, score_new_best)
  else if candidate_cost < current_cost then (true, score_improved)
  else if u < accept_prob (candidate_cost - current_cost) temperature then
    (true, score_accepted)
  else (false, 0)

section RouletteLemmas

/-- The cumulative-subtraction loop either stops at some offset inside the
list or falls through to the fallback index. -/
lemma rouletteGo_bound (l : List OperatorStats) : ∀ (roll : ℚ) (i fb : Nat),
    rouletteGo roll i l fb < i + l.length ∨ rouletteGo roll i l fb = fb := by
  induction l with
  | nil => intro roll i fb; right; rfl
  | cons s rest ih =>
    intro roll i fb
    unfold rouletteGo
    split
    · left; simp only [List.length_cons]; omega
    · rcases ih (roll - s.weight) (i + 1) fb with h | h
      · left; simp only [List.length_cons]; omega
      · right; exact h

/-- On a non-empty pool the selected index is always in range. -/
lemma rouletteIndex_lt (stats : List OperatorStats) (roll : ℚ) (h : stats ≠ []) :
    rouletteIndex stats roll < stats.length := by
  have hlen : 0 < stats.length := List.length_pos.mpr h
  unfold rouletteIndex
  split
  · exact hlen
  · rcases rouletteGo_bound stats roll 0 (stats.length - 1) with hb | hb
    · omega
    · omega

end RouletteLemmas

/-- C7: `roulette_select` returns index 0 without consuming randomness
whenever the pool is empty or the weight sum is not positive; on a non-empty
pool, for every drawn roll the computed index is in `[0, N)` (so the
cumulative loop terminates, clamped to the last index); and over a single
operator with positive weight the index is always 0. -/
theorem roulette_select_spec (stats : List OperatorStats) (rng : Rng) (roll : ℚ) :
    (totalWeight stats ≤ 0 ∨ stats = [] → roulette_select stats rng = (0, rng)) ∧
    (stats ≠ [] → rouletteIndex stats roll < stats.length) ∧
    (∀ s : OperatorStats, 0 < s.weight → rouletteIndex [s] roll = 0) := by
  refine ⟨?_, ?_, ?_⟩
  · intro h
    unfold roulette_select
    rw [if_pos h]
  · intro h
    exact rouletteIndex_lt stats roll h
  · intro s _
    have h := rouletteIndex_lt [s] roll (by simp)
    simpa using Nat.lt_one_iff.mp (by simpa using h)

/-- A concrete generator for witnesses: the all-zeroes stream at position 0. -/
def rngZero : Rng where
  stream := fun _ => 0
  pos := 0

/-- Witness for C7 at concrete inputs: the empty pool, and a singleton pool
with the initial weight 1. -/
theorem roulette_select_spec_witness :
    roulette_select [] rngZero = (0, rngZero) ∧
    rouletteIndex [OperatorStats.new] (1/2) < 1 ∧
    rouletteIndex [OperatorStats.new] (1/2) = 0 :=
  ⟨(roulette_select_spec [] rngZero 0).1 (Or.inr rfl),
   by simpa using (roulette_select_spec [OperatorStats.new] rngZero (1/2)).2.1 (by simp),
   (roulette_select_spec [OperatorStats.new] rngZero (1/2)).2.2 OperatorStats.new
     (by norm_num [OperatorStats.new])⟩

/-- Shared characterization of successful validation (config.rs lines
147-173). -/
lemma validate_ok_iff (c : AlnsConfig) :
    c.validate = .ok () ↔
      (0 < c.max_iterations ∧ (0 < c.reaction_factor ∧ c.reaction_factor ≤ 1) ∧
       (0 < c.cooling_rate ∧ c.cooling_rate < 1) ∧ 0 < c.initial_temperature ∧
       0 < c.min_temperature ∧ c.min_destroy_degree ≤ c.max_destroy_degree) := by
  unfold AlnsConfig.validate
  split_ifs with h1 h2 h3 h4 h5 h6
  · simp only [reduceCtorEq, false_iff]
    intro h; omega
  · simp only [reduceCtorEq, false_iff]
    rintro ⟨-, ⟨ha, hb⟩, -⟩
    rcases h2 with h | h <;> linarith
  · simp only [reduceCtorEq, false_iff]
    rintro ⟨-, -, ⟨ha, hb⟩, -⟩
    rcases h3 with h | h <;> linarith
  · simp only [reduceCtorEq, false_iff]
    rintro ⟨-, -, -, ha, -⟩
    linarith
  · simp only [reduceCtorEq, false_iff]
    rintro ⟨-, -, -, -, ha, -⟩
    linarith
  · simp only [reduceCtorEq, false_iff]
    rintro ⟨-, -, -, -, -, ha⟩
    linarith
  · simp only [true_iff]
    push_neg at h2 h3
    exact ⟨by omega, ⟨h2.1, h2.2⟩, ⟨h3.1, h3.2⟩, by linarith, by linarith, by linarith⟩

/-- C6: `validate()` succeeds exactly when all six rules hold, reports the
first violated rule in the fixed source order on failure, and the runner
invokes it first and refuses to start (returning the fatal error with no
iteration executed) when it fails. -/
theorem validate_spec (c : AlnsConfig) :
    (c.validate = .ok () ↔
      (0 < c.max_iterations ∧ (0 < c.reaction_factor ∧ c.reaction_factor ≤ 1) ∧
       (0 < c.cooling_rate ∧ c.cooling_rate < 1) ∧ 0 < c.initial_temperature ∧
       0 < c.min_temperature ∧ c.min_destroy_degree ≤ c.max_destroy_degree)) ∧
    (c.max_iterations = 0 → c.validate = .error "max_iterations must be positive") ∧
    (0 < c.max_iterations → (c.reaction_factor ≤ 0 ∨ 1 < c.reaction_factor) →
      c.validate =
        .error ("reaction_factor must be in (0, 1], got " ++ toString c.reaction_factor)) ∧
    (0 < c.max_iterations → 0 < c.reaction_factor → c.reaction_factor ≤ 1 →
      (c.cooling_rate ≤ 0 ∨ 1 ≤ c.cooling_rate) →
      c.validate =
        .error ("cooling_rate must be in (0, 1), got " ++ toString c.cooling_rate)) ∧
    (0 < c.max_iterations → 0 < c.reaction_factor → c.reaction_factor ≤ 1 →
      0 < c.cooling_rate → c.cooling_rate < 1 → c.initial_temperature ≤ 0 →
      c.validate = .error "initial_temperature must be positive") ∧
    (0 < c.max_iterations → 0 < c.reaction_factor → c.reaction_factor ≤ 1 →
      0 < c.cooling_rate → c.cooling_rate < 1 → 0 < c.initial_temperature →
      c.min_temperature ≤ 0 →
      c.validate = .error "min_temperature must be positive") ∧
    (0 < c.max_iterations → 0 < c.reaction_factor → c.reaction_factor ≤ 1 →
      0 < c.cooling_rate → c.cooling_rate < 1 → 0 < c.initial_temperature →
      0 < c.min_temperature → c.max_destroy_degree < c.min_destroy_degree →
      c.validate = .error "min_destroy_degree must be <= max_destroy_degree") ∧
    (∀ e, c.validate = .error e →
      ∀ (nD nR : Nat) (ic : ℚ) (oracle : Nat → IterInput) (cancel : Nat → Bool),
        run_with_cancel c nD nR ic oracle cancel = .error ("invalid AlnsConfig: " ++ e)) := by
  refine ⟨validate_ok_iff c, ?_, ?_, ?_, ?_, ?_, ?_, ?_⟩
  · intro h1
    unfold AlnsConfig.validate
    rw [if_pos h1]
  · intro h1 h2
    unfold AlnsConfig.validate
    rw [if_neg (by omega), if_pos h2]
  · intro h1 h2a h2b h3
    unfold AlnsConfig.validate
    rw [if_neg (by omega), if_neg (by push_neg; exact ⟨h2a, h2b⟩), if_pos h3]
  · intro h1 h2a h2b h3a h3b h4
    unfold AlnsConfig.validate
    rw [if_neg (by omega), if_neg (by push_neg; exact ⟨h2a, h2b⟩),
      if_neg (by push_neg; exact ⟨h3a, h3b⟩), if_pos h4]
  · intro h1 h2a h2b h3a h3b h4 h5
    unfold AlnsConfig.validate
    rw [if_neg (by omega), if_neg (by push_neg; exact ⟨h2a, h2b⟩),
      if_neg (by push_neg; exact ⟨h3a, h3b⟩), if_neg (by linarith), if_pos h5]
  · intro h1 h2a h2b h3a h3b h4 h5 h6
    unfold AlnsConfig.validate
    rw [if_neg (by omega), if_neg (by push_neg; exact ⟨h2a, h2b⟩),
      if_neg (by push_neg; exact ⟨h3a, h3b⟩), if_neg (by linarith), if_neg (by linarith),
      if_pos h6]
  · intro e he nD nR ic oracle cancel
    unfold run_with_cancel
    rw [he]

/-- Witness for C6: the default configuration validates, and zeroing its
iteration budget produces the first rule's error. -/
theorem validate_spec_witness :
    AlnsConfig.default.validate = .ok () ∧
    ({ AlnsConfig.default with max_iterations := 0 } : AlnsConfig).validate =
      .error "max_iterations must be positive" :=
  ⟨(validate_spec AlnsConfig.default).1.mpr (by norm_num [AlnsConfig.default]),
   (validate_spec { AlnsConfig.default with max_iterations := 0 }).2.1 rfl⟩

section StepLemmas

/-- An iteration succeeds exactly when the destroy-degree range is non-empty
and the segment length is non-zero, and then it computes `stepResult`. -/
lemma stepIter_ok_iff (cfg : AlnsConfig) (inp : IterInput) (i : Nat) (st st' : LoopState) :
    stepIter cfg inp i st = .ok st' ↔
      (cfg.min_destroy_degree < cfg.max_destroy_degree ∧ cfg.segment_length ≠ 0 ∧
       st' = stepResult cfg inp i st) := by
  unfold stepIter
  split_ifs with h1 h2
  · simp [h2]
  · simp [h1, h2, eq_comm]
  · simp [h1]

lemma stepResult_currentCost (cfg : AlnsConfig) (inp : IterInput) (i : Nat) (st : LoopState) :
    (stepResult cfg inp i st).currentCost =
      if tierAccepted inp st then inp.candidateCost else st.currentCost := rfl

lemma stepResult_bestCost (cfg : AlnsConfig) (inp : IterInput) (i : Nat) (st : LoopState) :
    (stepResult cfg inp i st).bestCost =
      if inp.candidateCost < st.bestCost then inp.candidateCost else st.bestCost := rfl

lemma stepResult_temperature (cfg : AlnsConfig) (inp : IterInput) (i : Nat) (st : LoopState) :
    (stepResult cfg inp i st).temperature =
      max (st.temperature * cfg.cooling_rate) cfg.min_temperature := rfl

lemma stepResult_cost_history (cfg : AlnsConfig) (inp : IterInput) (i : Nat) (st : LoopState) :
    (stepResult cfg inp i st).cost_history =
      if (i + 1) % (max cfg.segment_length 1) = 0 then
        st.cost_history ++ [(stepResult cfg inp i st).bestCost]
      else st.cost_history := rfl

lemma stepResult_best_le (cfg : AlnsConfig) (inp : IterInput) (i : Nat) (st : LoopState) :
    (stepResult cfg inp i st).bestCost ≤ st.bestCost := by
  rw [stepResult_bestCost]
  split_ifs with h
  · exact le_of_lt h
  · exact le_refl _

end StepLemmas

/-- C2: the acceptance decision has exactly three tiers evaluated in priority
order: a candidate beating the best is always accepted with reward
`score_new_best` (for every temperature) and promoted to best and current; a
candidate beating only the current cost is always accepted with reward
`score_improved`; otherwise acceptance is gated on the draw `u` falling below
`exp(-(candidate_cost - current_cost) / temperature)` — a probability that is
0 whenever the temperature is not positive — with reward `score_accepted` on
acceptance, and rejection leaves reward 0 and the current and best costs
unchanged. -/
theorem acceptance_three_tiers (sNew sImp sAcc best_cost current_cost candidate_cost T u : ℝ) :
    (candidate_cost < best_cost →
      acceptanceDecision sNew sImp sAcc best_cost current_cost candidate_cost T u =
        (true, sNew)) ∧
    (¬ candidate_cost < best_cost → candidate_cost < current_cost →
      acceptanceDecision sNew sImp sAcc best_cost current_cost candidate_cost T u =
        (true, sImp)) ∧
    (¬ candidate_cost < best_cost → ¬ candidate_cost < current_cost → 0 < T →
      acceptanceDecision sNew sImp sAcc best_cost current_cost candidate_cost T u =
        if u < Real.exp (-(candidate_cost - current_cost) / T) then (true, sAcc)
        else (false, 0)) ∧
    (¬ candidate_cost < best_cost → ¬ candidate_cost < current_cost → T ≤ 0 → 0 ≤ u →
      acceptanceDecision sNew sImp sAcc best_cost current_cost candidate_cost T u =
        (false, 0)) ∧
    (∀ (cfg : AlnsConfig) (inp : IterInput) (i : Nat) (st st' : LoopState),
      stepIter cfg inp i st = .ok st' → inp.candidateCost < st.bestCost →
      st'.bestCost = inp.candidateCost ∧ st'.currentCost = inp.candidateCost) ∧
    (∀ (cfg : AlnsConfig) (inp : IterInput) (i : Nat) (st st' : LoopState),
      stepIter cfg inp i st = .ok st' → ¬ inp.candidateCost < st.bestCost →
      ¬ inp.candidateCost < st.currentCost → inp.saAccept = false →
      st'.currentCost = st.currentCost ∧ st'.bestCost = st.bestCost) := by
  refine ⟨?_, ?_, ?_, ?_, ?_, ?_⟩
  · intro h
    unfold acceptanceDecision
    rw [if_pos h]
  · intro h1 h2
    unfold acceptanceDecision
    rw [if_neg h1, if_pos h2]
  · intro h1 h2 hT
    unfold acceptanceDecision accept_prob
    rw [if_neg h1, if_neg h2, if_pos hT]
  · intro h1 h2 hT hu
    unfold acceptanceDecision accept_prob
    rw [if_neg h1, if_neg h2, if_neg (not_lt.mpr hT),
      if_neg (not_lt.mpr hu)]
  · intro cfg inp i st st' hok hlt
    obtain ⟨-, -, rfl⟩ := (stepIter_ok_iff cfg inp i st st').mp hok
    refine ⟨?_, ?_⟩
    · rw [stepResult_bestCost, if_pos hlt]
    · rw [stepResult_currentCost, if_pos (by simp [tierAccepted, hlt])]
  · intro cfg inp i st st' hok h1 h2 hsa
    obtain ⟨-, -, rfl⟩ := (stepIter_ok_iff cfg inp i st st').mp hok
    refine ⟨?_, ?_⟩
    · rw [stepResult_currentCost, if_neg (by simp [tierAccepted, h1, h2, hsa])]
    · rw [stepResult_bestCost, if_neg h1]

/-- Witness for C2 at concrete inputs: a strictly-better candidate is
accepted with the new-best reward even at temperature 0, and a worse
candidate with a rejecting draw is rejected with reward 0. -/
theorem acceptance_three_tiers_witness :
    acceptanceDecision 33 9 3 (5 : ℝ) 5 4 0 0 = (true, 33) ∧
    acceptanceDecision 33 9 3 (5 : ℝ) 5 6 0 0 = (false, 0) :=
  ⟨(acceptance_three_tiers 33 9 3 5 5 4 0 0).1 (by norm_num),
   (acceptance_three_tiers 33 9 3 5 5 6 0 0).2.2.2.1 (by norm_num) (by norm_num)
     (le_refl 0) (le_refl 0)⟩

section LoopInvariants

/-- Appending an element below everything in a non-increasing list keeps it
non-increasing. -/
lemma chain'_le_snoc (x : ℚ) : ∀ (l : List ℚ),
    List.Chain' (fun a b => b ≤ a) l → (∀ y ∈ l, x ≤ y) →
    List.Chain' (fun a b => b ≤ a) (l ++ [x])
  | [], _, _ => List.chain'_singleton x
  | [a], _, hall => by
    simp only [List.cons_append, List.nil_append, List.chain'_cons, List.chain'_singleton,
      and_true]
    exact hall a (List.mem_singleton_self a)
  | a :: b :: l, hc, hall => by
    simp only [List.cons_append, List.chain'_cons]
    rw [List.chain'_cons] at hc
    exact ⟨hc.1, chain'_le_snoc x (b :: l)  hc.2
      (fun y hy => hall y (List.mem_cons_of_mem a hy))⟩

/-- The history invariant: the recorded history is non-increasing and every
entry dominates the current best cost. -/
def HistInv (st : LoopState) : Prop :=
  List.Chain' (fun a b => b ≤ a) st.cost_history ∧
    ∀ x ∈ st.cost_history, st.bestCost ≤ x

/-- One iteration preserves the history invariant: the best cost can only
drop, and the only entry ever appended is the new best cost. -/
lemma stepResult_histInv (cfg : AlnsConfig) (inp : IterInput) (i : Nat) (st : LoopState)
    (h : HistInv st) : HistInv (stepResult cfg inp i st) := by
  obtain ⟨hc, hall⟩ := h
  have hble := stepResult_best_le cfg inp i st
  constructor
  · rw [stepResult_cost_history]
    split_ifs
    · exact chain'_le_snoc _ _ hc fun y hy => le_trans hble (hall y hy)
    · exact hc
  · intro x hx
    rw [stepResult_cost_history] at hx
    split_ifs at hx
    · rcases List.mem_append.mp hx with hx | hx
      · exact le_trans hble (hall x hx)
      · rw [List.mem_singleton.mp hx]
    · exact le_trans hble (hall x hx)

/-- Any predicate preserved by cancellation marking and by the step body is
an invariant of the whole loop. -/
lemma runIters_preserves (cfg : AlnsConfig) (oracle : Nat → IterInput) (cancel : Nat → Bool)
    {P : LoopState → Prop}
    (hcancel : ∀ st, P st → P { st with cancelled := true })
    (hstep : ∀ inp i st, P st → P (stepResult cfg inp i st)) :
    ∀ (fuel i : Nat) (st st' : LoopState), P st →
      runIters cfg oracle cancel fuel i st = .ok st' → P st' := by
  intro fuel
  induction fuel with
  | zero =>
    intro i st st' hP h
    simp only [runIters] at h
    cases h
    exact hP
  | succ fuel ih =>
    intro i st st' hP h
    simp only [runIters] at h
    by_cases hcanc : cancel i
    · rw [if_pos hcanc] at h
      cases h
      exact hcancel st hP
    · rw [if_neg hcanc] at h
      rcases hst : stepIter cfg (oracle i) i st with e | st1
      · rw [hst] at h
        cases h
      · rw [hst] at h
        obtain ⟨-, -, rfl⟩ := (stepIter_ok_iff _ _ _ _ _).mp hst
        exact ih (i + 1) _ st' (hstep (oracle i) i st hP) h

end LoopInvariants

/-- C1: for every configuration accepted by `validate`, every seed-determined
input trace, every problem (arbitrary initial and candidate costs) and
non-empty operator pools, a completed `run_with_cancel` returns a
`cost_history` in which every entry is at most the entry before it. -/
theorem cost_history_non_increasing (cfg : AlnsConfig) (nD nR : Nat) (ic : ℚ)
    (oracle : Nat → IterInput) (cancel : Nat → Bool) (result : AlnsResult)
    (hval : cfg.validate = .ok ()) (hnD : 0 < nD) (hnR : 0 < nR)
    (hrun : run_with_cancel cfg nD nR ic oracle cancel = .ok result) :
    List.Chain' (fun a b => b ≤ a) result.cost_history := by
  simp only [run_with_cancel, hval] at hrun
  rw [if_neg (Nat.pos_iff_ne_zero.mp hnD), if_neg (Nat.pos_iff_ne_zero.mp hnR)] at hrun
  rcases hri : runIters cfg oracle cancel cfg.max_iterations 0 (initState cfg nD nR ic)
    with e | stF
  · rw [hri] at hrun
    cases hrun
  · rw [hri] at hrun
    cases hrun
    have hinv0 : HistInv (initState cfg nD nR ic) := by
      constructor
      · exact List.chain'_singleton ic
      · intro x hx
        rw [List.mem_singleton.mp hx]
        exact le_refl ic
    have hinv : HistInv stF :=
      runIters_preserves cfg oracle cancel
        (fun st hP => hP) (stepResult_histInv cfg) cfg.max_iterations 0 _ stF hinv0 hri
    show List.Chain' (fun a b => b ≤ a) (mkResult cfg stF).cost_history
    have : (mkResult cfg stF).cost_history = finalHistory stF.cost_history stF.bestCost := rfl
    rw [this]
    unfold finalHistory
    split_ifs
    · exact chain'_le_snoc _ _ hinv.1 hinv.2
    · exact hinv.1

/-- A concrete valid configuration for witnesses: one iteration, segment
length 1, halving cooling from temperature 4 floored at 1, reaction factor 1
and weight floor 1. -/
def cfgW : AlnsConfig where
  max_iterations := 1
  segment_length := 1
  score_new_best := 33
  score_improved := 9
  score_accepted := 3
  reaction_factor := 1
  min_weight := 1
  min_destroy_degree := 0
  max_destroy_degree := 1
  initial_temperature := 4
  cooling_rate := 1/2
  min_temperature := 1
  seed := some 42

/-- A concrete input trace for witnesses: every iteration proposes a
candidate of cost 3 and the SA draw rejects. -/
def oracleZero : Nat → IterInput := fun _ => ⟨0, 0, 3, false⟩

lemma cfgW_validate_ok : cfgW.validate = .ok () := by
  norm_num [AlnsConfig.validate, cfgW]

/-- The result of the one-iteration witness run from initial cost 5: the
candidate of cost 3 becomes the new best, the segment closes and lifts both
weights to the average reward 33, and the temperature halves to 2. -/
def resW : AlnsResult where
  best_cost := 3
  iterations := 1
  improvements := 1
  final_temperature := 2
  cancelled := false
  destroy_weights := [33]
  repair_weights := [33]
  cost_history := [5, 3]

lemma runW_eq : run_with_cancel cfgW 1 1 5 oracleZero (fun _ => false) = .ok resW := by
  norm_num [run_with_cancel, AlnsConfig.validate, cfgW, runIters, stepIter, stepResult,
    initState, mkResult, finalHistory, needFinalPush, recordedDestroy, recordedRepair,
    recordAt, rouletteIndex, rouletteGo, totalWeight, tierAccepted, tierScore,
    OperatorStats.new, OperatorStats.record, OperatorStats.update_weight, oracleZero, resW,
    List.replicate, decide_eq_true_eq]

/-- Witness for C1: the concrete one-iteration run completes and its history
is non-increasing. -/
theorem cost_history_non_increasing_witness :
    List.Chain' (fun a b => b ≤ a) resW.cost_history :=
  cost_history_non_increasing cfgW 1 1 5 oracleZero (fun _ => false) resW cfgW_validate_ok
    (by decide) (by decide) runW_eq

section CadenceLemmas

lemma stepResult_destroy_stats (cfg : AlnsConfig) (inp : IterInput) (i : Nat) (st : LoopState) :
    (stepResult cfg inp i st).destroy_stats =
      if (i + 1) % cfg.segment_length = 0 then
        (recordedDestroy cfg inp st).map
          (fun s => s.update_weight cfg.reaction_factor cfg.min_weight)
      else recordedDestroy cfg inp st := rfl

lemma stepResult_repair_stats (cfg : AlnsConfig) (inp : IterInput) (i : Nat) (st : LoopState) :
    (stepResult cfg inp i st).repair_stats =
      if (i + 1) % cfg.segment_length = 0 then
        (recordedRepair cfg inp st).map
          (fun s => s.update_weight cfg.reaction_factor cfg.min_weight)
      else recordedRepair cfg inp st := rfl

/-- Recording a score never changes any weight. -/
lemma recordAt_map_weight : ∀ (l : List OperatorStats) (i : Nat) (q : ℚ),
    (recordAt l i q).map (·.weight) = l.map (·.weight)
  | [], _, _ => rfl
  | s :: rest, 0, q => by simp [recordAt, OperatorStats.record]
  | s :: rest, n + 1, q => by simp [recordAt, recordAt_map_weight rest n q]

end CadenceLemmas

/-- C3: at every 1-indexed iteration count divisible by `segment_length`
(`i` is the 0-indexed counter, so at `(i + 1) % segment_length = 0`), every
operator in both pools gets the exponential-smoothing weight update — floored
at `min_weight` when it was used this segment, untouched otherwise — and its
segment accumulators are reset to zero; at every other iteration the pools
only accumulate (weights unchanged, accumulators not reset). -/
theorem weight_update_cadence (cfg : AlnsConfig) (inp : IterInput) (i : Nat)
    (st st' : LoopState) :
    (∀ s : OperatorStats,
      s.update_weight cfg.reaction_factor cfg.min_weight =
        if 0 < s.segment_uses then
          { weight := max (s.weight * (1 - cfg.reaction_factor) +
              (s.segment_score / (s.segment_uses : ℚ)) * cfg.reaction_factor) cfg.min_weight
            segment_score := 0
            segment_uses := 0 }
        else { s with segment_score := 0, segment_uses := 0 }) ∧
    (stepIter cfg inp i st = .ok st' →
      (((i + 1) % cfg.segment_length = 0 →
        st'.destroy_stats = (recordedDestroy cfg inp st).map
          (fun s => s.update_weight cfg.reaction_factor cfg.min_weight) ∧
        st'.repair_stats = (recordedRepair cfg inp st).map
          (fun s => s.update_weight cfg.reaction_factor cfg.min_weight) ∧
        (∀ s ∈ st'.destroy_stats, s.segment_score = 0 ∧ s.segment_uses = 0) ∧
        (∀ s ∈ st'.repair_stats, s.segment_score = 0 ∧ s.segment_uses = 0)) ∧
      ((i + 1) % cfg.segment_length ≠ 0 →
        st'.destroy_stats = recordedDestroy cfg inp st ∧
        st'.repair_stats = recordedRepair cfg inp st ∧
        st'.destroy_stats.map (·.weight) = st.destroy_stats.map (·.weight) ∧
        st'.repair_stats.map (·.weight) = st.repair_stats.map (·.weight)))) := by
  constructor
  · intro s
    rfl
  · intro hok
    obtain ⟨-, -, rfl⟩ := (stepIter_ok_iff cfg inp i st st').mp hok
    constructor
    · intro hb
      have hd := stepResult_destroy_stats cfg inp i st
      have hr := stepResult_repair_stats cfg inp i st
      rw [if_pos hb] at hd hr
      refine ⟨hd, hr, ?_, ?_⟩
      · intro s hs
        rw [hd] at hs
        obtain ⟨t, -, rfl⟩ := List.mem_map.mp hs
        unfold OperatorStats.update_weight
        split_ifs <;> exact ⟨rfl, rfl⟩
      · intro s hs
        rw [hr] at hs
        obtain ⟨t, -, rfl⟩ := List.mem_map.mp hs
        unfold OperatorStats.update_weight
        split_ifs <;> exact ⟨rfl, rfl⟩
    · intro hb
      have hd := stepResult_destroy_stats cfg inp i st
      have hr := stepResult_repair_stats cfg inp i st
      rw [if_neg hb] at hd hr
      refine ⟨hd, hr, ?_, ?_⟩
      · rw [hd]
        exact recordAt_map_weight _ _ _
      · rw [hr]
        exact recordAt_map_weight _ _ _

/-- A two-iteration-segment variant of the witness configuration, so that
iteration 0 is not a segment boundary. -/
def cfgC3 : AlnsConfig := { cfgW with segment_length := 2 }

lemma stepC3_eq :
    stepIter cfgC3 (oracleZero 0) 0 (initState cfgC3 1 1 5) =
      .ok (stepResult cfgC3 (oracleZero 0) 0 (initState cfgC3 1 1 5)) :=
  (stepIter_ok_iff _ _ _ _ _).mpr
    ⟨by norm_num [cfgC3, cfgW], by norm_num [cfgC3, cfgW], rfl⟩

/-- Witness for C3: at the concrete non-boundary iteration 0 of a segment of
length 2, the destroy weights are unchanged. -/
theorem weight_update_cadence_witness :
    (stepResult cfgC3 (oracleZero 0) 0 (initState cfgC3 1 1 5)).destroy_stats.map (·.weight) =
      (initState cfgC3 1 1 5).destroy_stats.map (·.weight) :=
  (((weight_update_cadence cfgC3 (oracleZero 0) 0 (initState cfgC3 1 1 5)
      (stepResult cfgC3 (oracleZero 0) 0 (initState cfgC3 1 1 5))).2 stepC3_eq).2
    (by norm_num [cfgC3, cfgW])).2.2.1

section FloorLemmas

lemma floor_of_map_weight_eq {w : ℚ} {l l' : List OperatorStats}
    (h : l'.map (·.weight) = l.map (·.weight)) (hf : ∀ s ∈ l, w ≤ s.weight) :
    ∀ s ∈ l', w ≤ s.weight := by
  intro s hs
  have hmem : s.weight ∈ l'.map (·.weight) := List.mem_map_of_mem _ hs
  rw [h] at hmem
  obtain ⟨t, ht, hw⟩ := List.mem_map.mp hmem
  rw [← hw]
  exact hf t ht

lemma floor_map_update {w rho : ℚ} {l : List OperatorStats}
    (hf : ∀ s ∈ l, w ≤ s.weight) :
    ∀ s ∈ l.map (fun s => s.update_weight rho w), w ≤ s.weight := by
  intro s' hs'
  obtain ⟨s, hs, rfl⟩ := List.mem_map.mp hs'
  unfold OperatorStats.update_weight
  split_ifs with h
  · exact le_max_right _ _
  · exact hf s hs

/-- One iteration keeps every weight in both pools at or above the floor. -/
lemma stepResult_floor (cfg : AlnsConfig) (inp : IterInput) (i : Nat) (st : LoopState)
    (hd : ∀ s ∈ st.destroy_stats, cfg.min_weight ≤ s.weight)
    (hr : ∀ s ∈ st.repair_stats, cfg.min_weight ≤ s.weight) :
    (∀ s ∈ (stepResult cfg inp i st).destroy_stats, cfg.min_weight ≤ s.weight) ∧
    (∀ s ∈ (stepResult cfg inp i st).repair_stats, cfg.min_weight ≤ s.weight) := by
  have hdm : (recordedDestroy cfg inp st).map (·.weight) = st.destroy_stats.map (·.weight) :=
    recordAt_map_weight _ _ _
  have hrm : (recordedRepair cfg inp st).map (·.weight) = st.repair_stats.map (·.weight) :=
    recordAt_map_weight _ _ _
  constructor
  · rw [stepResult_destroy_stats]
    split_ifs
    · exact floor_map_update (floor_of_map_weight_eq hdm hd)
    · exact floor_of_map_weight_eq hdm hd
  · rw [stepResult_repair_stats]
    split_ifs
    · exact floor_map_update (floor_of_map_weight_eq hrm hr)
    · exact floor_of_map_weight_eq hrm hr

end FloorLemmas

/-- C4, amended: provided additionally `min_weight ≤ 1` (the weight every
operator starts with — a bound `validate()` does not enforce), every weight
in both pools stays at or above `min_weight` throughout the run: the floor is
applied by every Weight Adaptation update of a used operator, every iteration
preserves the bound on both pools, and the final weight vectors of a
completed run satisfy it. -/
theorem weights_respect_floor (cfg : AlnsConfig) (nD nR : Nat) (ic : ℚ)
    (oracle : Nat → IterInput) (cancel : Nat → Bool) (result : AlnsResult)
    (hval : cfg.validate = .ok ()) (hmw : cfg.min_weight ≤ 1)
    (hrun : run_with_cancel cfg nD nR ic oracle cancel = .ok result) :
    (∀ s : OperatorStats, 0 < s.segment_uses →
      cfg.min_weight ≤ (s.update_weight cfg.reaction_factor cfg.min_weight).weight) ∧
    (∀ (inp : IterInput) (i : Nat) (st st' : LoopState),
      stepIter cfg inp i st = .ok st' →
      (∀ s ∈ st.destroy_stats, cfg.min_weight ≤ s.weight) →
      (∀ s ∈ st.repair_stats, cfg.min_weight ≤ s.weight) →
      (∀ s ∈ st'.destroy_stats, cfg.min_weight ≤ s.weight) ∧
      (∀ s ∈ st'.repair_stats, cfg.min_weight ≤ s.weight)) ∧
    (∀ w ∈ result.destroy_weights, cfg.min_weight ≤ w) ∧
    (∀ w ∈ result.repair_weights, cfg.min_weight ≤ w) := by
  have hstep : ∀ (inp : IterInput) (i : Nat) (st st' : LoopState),
      stepIter cfg inp i st = .ok st' →
      (∀ s ∈ st.destroy_stats, cfg.min_weight ≤ s.weight) →
      (∀ s ∈ st.repair_stats, cfg.min_weight ≤ s.weight) →
      (∀ s ∈ st'.destroy_stats, cfg.min_weight ≤ s.weight) ∧
      (∀ s ∈ st'.repair_stats, cfg.min_weight ≤ s.weight) := by
    intro inp i st st' hok hd hr
    obtain ⟨-, -, rfl⟩ := (stepIter_ok_iff cfg inp i st st').mp hok
    exact stepResult_floor cfg inp i st hd hr
  refine ⟨?_, hstep, ?_⟩
  · intro s h
    unfold OperatorStats.update_weight
    rw [if_pos h]
    exact le_max_right _ _
  · simp only [run_with_cancel, hval] at hrun
    by_cases hnD : nD = 0
    · rw [if_pos hnD] at hrun
      cases hrun
    by_cases hnR : nR = 0
    · rw [if_neg hnD, if_pos hnR] at hrun
      cases hrun
    rw [if_neg hnD, if_neg hnR] at hrun
    rcases hri : runIters cfg oracle cancel cfg.max_iterations 0 (initState cfg nD nR ic)
      with e | stF
    · rw [hri] at hrun
      cases hrun
    · rw [hri] at hrun
      cases hrun
      have hinv0 : (∀ s ∈ (initState cfg nD nR ic).destroy_stats, cfg.min_weight ≤ s.weight) ∧
          (∀ s ∈ (initState cfg nD nR ic).repair_stats, cfg.min_weight ≤ s.weight) := by
        constructor <;>
          · intro s hs
            rw [List.eq_of_mem_replicate hs]
            exact hmw
      have hinv : (∀ s ∈ stF.destroy_stats, cfg.min_weight ≤ s.weight) ∧
          (∀ s ∈ stF.repair_stats, cfg.min_weight ≤ s.weight) :=
        @runIters_preserves cfg oracle cancel
          (fun st => (∀ s ∈ st.destroy_stats, cfg.min_weight ≤ s.weight) ∧
            (∀ s ∈ st.repair_stats, cfg.min_weight ≤ s.weight))
          (fun st hP => hP)
          (fun inp i st hP => stepResult_floor cfg inp i st hP.1 hP.2)
          cfg.max_iterations 0 _ stF hinv0 hri
      constructor
      · intro w hw
        obtain ⟨s, hs, rfl⟩ := List.mem_map.mp hw
        exact hinv.1 s hs
      · intro w hw
        obtain ⟨s, hs, rfl⟩ := List.mem_map.mp hw
        exact hinv.2 s hs

/-- The witness configuration with a weight floor of 2 — above the initial
weight 1 — and a segment too long for any Weight Adaptation update to run. -/
def cfgBadW : AlnsConfig := { cfgW with min_weight := 2, segment_length := 2 }

/-- The result of the one-iteration run under `cfgBadW`: the single operator
in each pool still has its initial weight 1, below `min_weight = 2`. -/
def resBadW : AlnsResult where
  best_cost := 3
  iterations := 1
  improvements := 1
  final_temperature := 2
  cancelled := false
  destroy_weights := [1]
  repair_weights := [1]
  cost_history := [5, 3]

/-- Counterexample to C4 as stated: a configuration accepted by `validate`
with `min_weight = 2` completes a run whose final destroy weights fall below
`min_weight`, because unused-segment operators keep their initial weight 1
and `validate` never compares `min_weight` with it. -/
theorem weights_respect_floor_counterexample :
    cfgBadW.validate = .ok () ∧
    run_with_cancel cfgBadW 1 1 5 oracleZero (fun _ => false) = .ok resBadW ∧
    ¬ (∀ w ∈ resBadW.destroy_weights, cfgBadW.min_weight ≤ w) := by
  refine ⟨by norm_num [AlnsConfig.validate, cfgBadW, cfgW], ?_, ?_⟩
  · norm_num [run_with_cancel, AlnsConfig.validate, cfgBadW, cfgW, runIters, stepIter,
      stepResult, initState, mkResult, finalHistory, needFinalPush, recordedDestroy,
      recordedRepair, recordAt, rouletteIndex, rouletteGo, totalWeight, tierAccepted,
      tierScore, OperatorStats.new, OperatorStats.record, OperatorStats.update_weight,
      oracleZero, resBadW, List.replicate, decide_eq_true_eq]
  · intro h
    have h1 := h 1 (by simp [resBadW])
    norm_num [cfgBadW, cfgW] at h1

/-- Witness for the amended C4: the one-iteration witness run (whose floor
1 is at most the initial weight) ends with all weights at or above the
floor. -/
theorem weights_respect_floor_witness : cfgW.min_weight ≤ 33 :=
  (weights_respect_floor cfgW 1 1 5 oracleZero (fun _ => false) resW cfgW_validate_ok
    (by norm_num [cfgW]) runW_eq).2.2.1 33 (by simp [resW])

section TemperatureLemmas

/-- With a cooling rate in `(0, 1)` and a positive floor at most the current
temperature, one cooling step cannot raise the temperature and keeps it at or
above the floor. -/
lemma stepResult_temp_le (cfg : AlnsConfig) (inp : IterInput) (i : Nat) (st : LoopState)
    (hc1 : cfg.cooling_rate < 1) (hmin : cfg.min_temperature ≤ st.temperature)
    (hpos : 0 < cfg.min_temperature) :
    (stepResult cfg inp i st).temperature ≤ st.temperature ∧
    cfg.min_temperature ≤ (stepResult cfg inp i st).temperature := by
  rw [stepResult_temperature]
  refine ⟨max_le ?_ hmin, le_max_right _ _⟩
  have h0 : (0 : ℚ) ≤ st.temperature := le_trans (le_of_lt hpos) hmin
  calc st.temperature * cfg.cooling_rate ≤ st.temperature * 1 :=
        mul_le_mul_of_nonneg_left (le_of_lt hc1) h0
    _ = st.temperature := mul_one _

lemma runIters_temp (cfg : AlnsConfig) (oracle : Nat → IterInput) (cancel : Nat → Bool)
    (hc1 : cfg.cooling_rate < 1) (hpos : 0 < cfg.min_temperature) :
    ∀ (fuel i : Nat) (st st' : LoopState), cfg.min_temperature ≤ st.temperature →
      runIters cfg oracle cancel fuel i st = .ok st' →
      st'.temperature ≤ st.temperature ∧ cfg.min_temperature ≤ st'.temperature := by
  intro fuel
  induction fuel with
  | zero =>
    intro i st st' h hrun
    simp only [runIters] at hrun
    cases hrun
    exact ⟨le_refl _, h⟩
  | succ fuel ih =>
    intro i st st' h hrun
    simp only [runIters] at hrun
    by_cases hcanc : cancel i
    · rw [if_pos hcanc] at hrun
      cases hrun
      exact ⟨le_refl _, h⟩
    · rw [if_neg hcanc] at hrun
      rcases hst : stepIter cfg (oracle i) i st with e | st1
      · rw [hst] at hrun
        cases hrun
      · rw [hst] at hrun
        obtain ⟨-, -, rfl⟩ := (stepIter_ok_iff _ _ _ _ _).mp hst
        have h1 := stepResult_temp_le cfg (oracle i) i st hc1 h hpos
        have h2 := ih (i + 1) _ st' h1.2 hrun
        exact ⟨le_trans h2.1 h1.1, h2.2⟩

/-- A successful run factors through a successful loop from the initial
state. -/
lemma run_ok_elim (cfg : AlnsConfig) (nD nR : Nat) (ic : ℚ) (oracle : Nat → IterInput)
    (cancel : Nat → Bool) (result : AlnsResult) (hval : cfg.validate = .ok ())
    (hrun : run_with_cancel cfg nD nR ic oracle cancel = .ok result) :
    ∃ stF, runIters cfg oracle cancel cfg.max_iterations 0 (initState cfg nD nR ic) =
      .ok stF ∧ result = mkResult cfg stF := by
  simp only [run_with_cancel, hval] at hrun
  by_cases hnD : nD = 0
  · rw [if_pos hnD] at hrun
    cases hrun
  by_cases hnR : nR = 0
  · rw [if_neg hnD, if_pos hnR] at hrun
    cases hrun
  rw [if_neg hnD, if_neg hnR] at hrun
  rcases hri : runIters cfg oracle cancel cfg.max_iterations 0 (initState cfg nD nR ic)
    with e | stF
  · rw [hri] at hrun
    cases hrun
  · rw [hri] at hrun
    cases hrun
    exact ⟨stF, rfl, rfl⟩

end TemperatureLemmas

/-- C5, amended: the temperature is updated exactly once per iteration to
`max(temperature * cooling_rate, min_temperature)`, and — provided
additionally `min_temperature ≤ initial_temperature`, a bound `validate()`
does not enforce — it is non-increasing along the run and the final
temperature of a completed run is at most `initial_temperature`. -/
theorem temperature_non_increasing (cfg : AlnsConfig) (nD nR : Nat) (ic : ℚ)
    (oracle : Nat → IterInput) (cancel : Nat → Bool) (result : AlnsResult)
    (hval : cfg.validate = .ok ()) (hml : cfg.min_temperature ≤ cfg.initial_temperature)
    (hrun : run_with_cancel cfg nD nR ic oracle cancel = .ok result) :
    (∀ (inp : IterInput) (i : Nat) (st st' : LoopState),
      stepIter cfg inp i st = .ok st' →
      st'.temperature = max (st.temperature * cfg.cooling_rate) cfg.min_temperature) ∧
    (∀ (fuel i : Nat) (st st' : LoopState),
      cfg.min_temperature ≤ st.temperature →
      runIters cfg oracle cancel fuel i st = .ok st' →
      st'.temperature ≤ st.temperature) ∧
    result.final_temperature ≤ cfg.initial_temperature := by
  obtain ⟨-, -, ⟨hc0, hc1⟩, hT0, hminT, -⟩ := (validate_ok_iff cfg).mp hval
  refine ⟨?_, ?_, ?_⟩
  · intro inp i st st' hok
    obtain ⟨-, -, rfl⟩ := (stepIter_ok_iff _ _ _ _ _).mp hok
    exact stepResult_temperature cfg inp i st
  · intro fuel i st st' hle hri
    exact (runIters_temp cfg oracle cancel hc1 hminT fuel i st st' hle hri).1
  · obtain ⟨stF, hri, rfl⟩ :=
      run_ok_elim cfg nD nR ic oracle cancel result hval hrun
    have h := runIters_temp cfg oracle cancel hc1 hminT cfg.max_iterations 0
      (initState cfg nD nR ic) stF hml hri
    exact h.1

/-- The witness configuration with the floor temperature 2 above the initial
temperature 1 — accepted by `validate`, which never compares the two. -/
def cfgHotW : AlnsConfig := { cfgW with initial_temperature := 1, min_temperature := 2 }

/-- Counterexample to C5 as stated: under `cfgHotW` one iteration raises the
temperature from 1 to `max(1 * 1/2, 2) = 2 > initial_temperature`. -/
theorem temperature_non_increasing_counterexample :
    cfgHotW.validate = .ok () ∧
    run_with_cancel cfgHotW 1 1 5 oracleZero (fun _ => false) = .ok resW ∧
    cfgHotW.initial_temperature < resW.final_temperature := by
  refine ⟨by norm_num [AlnsConfig.validate, cfgHotW, cfgW], ?_,
    by norm_num [cfgHotW, cfgW, resW]⟩
  norm_num [run_with_cancel, AlnsConfig.validate, cfgHotW, cfgW, runIters, stepIter,
    stepResult, initState, mkResult, finalHistory, needFinalPush, recordedDestroy,
    recordedRepair, recordAt, rouletteIndex, rouletteGo, totalWeight, tierAccepted,
    tierScore, OperatorStats.new, OperatorStats.record, OperatorStats.update_weight,
    oracleZero, resW, List.replicate, decide_eq_true_eq]

/-- Witness for the amended C5: the one-iteration witness run (temperature
floor 1 below the initial temperature 4) ends at temperature 2 ≤ 4. -/
theorem temperature_non_increasing_witness :
    resW.final_temperature ≤ cfgW.initial_temperature :=
  (temperature_non_increasing cfgW 1 1 5 oracleZero (fun _ => false) resW cfgW_validate_ok
    (by norm_num [cfgW]) runW_eq).2.2

/-- C8: with a fixed seed `Some s`, the ambient entropy used only by the
unseeded branch is irrelevant — two runs with identical configuration,
problem and operator pools (identical `seedFn`), and no cancellation, return
identical results, in particular identical `best_cost`, `cost_history`,
`destroy_weights` and `repair_weights`. -/
theorem seeded_determinism (seedFn : Nat → SeededInputs) (cfg : AlnsConfig)
    (nD nR : Nat) (s e1 e2 : Nat) (hseed : cfg.seed = some s) :
    runSeeded seedFn cfg nD nR (fun _ => false) e1 =
      runSeeded seedFn cfg nD nR (fun _ => false) e2 ∧
    (runSeeded seedFn cfg nD nR (fun _ => false) e1).map (·.best_cost) =
      (runSeeded seedFn cfg nD nR (fun _ => false) e2).map (·.best_cost) ∧
    (runSeeded seedFn cfg nD nR (fun _ => false) e1).map (·.cost_history) =
      (runSeeded seedFn cfg nD nR (fun _ => false) e2).map (·.cost_history) ∧
    (runSeeded seedFn cfg nD nR (fun _ => false) e1).map (·.destroy_weights) =
      (runSeeded seedFn cfg nD nR (fun _ => false) e2).map (·.destroy_weights) ∧
    (runSeeded seedFn cfg nD nR (fun _ => false) e1).map (·.repair_weights) =
      (runSeeded seedFn cfg nD nR (fun _ => false) e2).map (·.repair_weights) := by
  have h : runSeeded seedFn cfg nD nR (fun _ => false) e1 =
      runSeeded seedFn cfg nD nR (fun _ => false) e2 := by
    unfold runSeeded
    rw [hseed]
  exact ⟨h, by rw [h], by rw [h], by rw [h], by rw [h]⟩

/-- A concrete seed-to-inputs function for the determinism witness. -/
def seedFnW : Nat → SeededInputs := fun s => ⟨(s : ℚ), oracleZero⟩

/-- Witness for C8: under the seeded witness configuration, entropies 0 and 1
give the same run. -/
theorem seeded_determinism_witness :
    runSeeded seedFnW cfgW 1 1 (fun _ => false) 0 =
      runSeeded seedFnW cfgW 1 1 (fun _ => false) 1 :=
  (seeded_determinism seedFnW cfgW 1 1 42 0 1 rfl).1

/-- If the flag is down and the body panics, the whole remaining loop gives
that panic. -/
lemma runIters_error_of_step (cfg : AlnsConfig) (oracle : Nat → IterInput)
    (cancel : Nat → Bool) (fuel i : Nat) (st : LoopState) (e : String)
    (hcanc : cancel i = false) (hst : stepIter cfg (oracle i) i st = .error e) :
    runIters cfg oracle cancel (fuel + 1) i st = .error e := by
  simp only [runIters, hcanc, Bool.false_eq_true, if_false, hst]

/-- C9: the destroy-degree draw needs `min_destroy_degree <
max_destroy_degree`, strictly more than the `<=` that `validate()` checks:
any validated configuration with the two equal and at least one iteration
(with non-empty pools and the flag down) makes `run_with_cancel` hit the
empty-range panic of `rng.random_range` instead of returning a result. -/
theorem empty_degree_range_panics (cfg : AlnsConfig) (nD nR : Nat) (ic : ℚ)
    (oracle : Nat → IterInput) (cancel : Nat → Bool)
    (hval : cfg.validate = .ok ()) (heq : cfg.min_destroy_degree = cfg.max_destroy_degree)
    (hmi : 1 ≤ cfg.max_iterations) (hnD : nD ≠ 0) (hnR : nR ≠ 0)
    (hcanc : cancel 0 = false) :
    run_with_cancel cfg nD nR ic oracle cancel = .error emptyRangeMsg := by
  have hstep : stepIter cfg (oracle 0) 0 (initState cfg nD nR ic) = .error emptyRangeMsg := by
    unfold stepIter
    rw [if_neg (by rw [heq]; exact lt_irrefl _)]
  obtain ⟨k, hk⟩ : ∃ k, cfg.max_iterations = k + 1 :=
    ⟨cfg.max_iterations - 1, by omega⟩
  simp only [run_with_cancel, hval]
  rw [if_neg hnD, if_neg hnR, hk,
    runIters_error_of_step cfg oracle cancel k 0 _ _ hcanc hstep]

/-- The witness configuration with an empty destroy-degree range
`[1, 1)` — accepted by `validate`, which only requires `min ≤ max`. -/
def cfgEqW : AlnsConfig := { cfgW with min_destroy_degree := 1, max_destroy_degree := 1 }

/-- Witness for C9: the concrete validated configuration with
`min_destroy_degree = max_destroy_degree = 1` panics at the degree draw. -/
theorem empty_degree_range_panics_witness :
    run_with_cancel cfgEqW 1 1 5 oracleZero (fun _ => false) = .error emptyRangeMsg :=
  empty_degree_range_panics cfgEqW 1 1 5 oracleZero (fun _ => false)
    (by norm_num [AlnsConfig.validate, cfgEqW, cfgW]) rfl (by decide) (by decide)
    (by decide) rfl

/-- C10: `validate()` ignores `segment_length` entirely (so a configuration
built directly with `segment_length = 0` can pass it, bypassing
`with_segment_length`, which clamps its argument to at least 1), and any
validated zero-segment configuration with a non-empty degree range, at least
one iteration, non-empty pools and the flag down makes the first iteration
hit the remainder-by-zero panic of the end-of-segment check. -/
theorem segment_length_zero_panics (cfg : AlnsConfig) (nD nR : Nat) (ic : ℚ)
    (oracle : Nat → IterInput) (cancel : Nat → Bool) (n : Nat) :
    (1 ≤ (cfg.with_segment_length n).segment_length) ∧
    (AlnsConfig.validate { cfg with segment_length := 0 } = cfg.validate) ∧
    (cfg.segment_length = 0 → cfg.validate = .ok () →
      cfg.min_destroy_degree < cfg.max_destroy_degree → 1 ≤ cfg.max_iterations →
      nD ≠ 0 → nR ≠ 0 → cancel 0 = false →
      run_with_cancel cfg nD nR ic oracle cancel = .error divisorZeroMsg) := by
  refine ⟨le_max_right n 1, rfl, ?_⟩
  intro hseg hval hlt hmi hnD hnR hcanc
  have hstep : stepIter cfg (oracle 0) 0 (initState cfg nD nR ic) =
      .error divisorZeroMsg := by
    unfold stepIter
    rw [if_pos hlt, if_pos hseg]
  obtain ⟨k, hk⟩ : ∃ k, cfg.max_iterations = k + 1 :=
    ⟨cfg.max_iterations - 1, by omega⟩
  simp only [run_with_cancel, hval]
  rw [if_neg hnD, if_neg hnR, hk,
    runIters_error_of_step cfg oracle cancel k 0 _ _ hcanc hstep]

/-- The witness configuration built directly with `segment_length = 0`. -/
def cfgSeg0W : AlnsConfig := { cfgW with segment_length := 0 }

/-- Witness for C10: the clamp of `with_segment_length 0` is at least 1,
while the directly-built zero-segment configuration validates and panics with
the remainder-by-zero message on its first iteration. -/
theorem segment_length_zero_panics_witness :
    1 ≤ (cfgSeg0W.with_segment_length 0).segment_length ∧
    run_with_cancel cfgSeg0W 1 1 5 oracleZero (fun _ => false) = .error divisorZeroMsg :=
  ⟨(segment_length_zero_panics cfgSeg0W 1 1 5 oracleZero (fun _ => false) 0).1,
   (segment_length_zero_panics cfgSeg0W 1 1 5 oracleZero (fun _ => false) 0).2.2 rfl
     (by norm_num [AlnsConfig.validate, cfgSeg0W, cfgW]) (by norm_num [cfgSeg0W, cfgW])
     (by decide) (by decide) (by decide) rfl⟩

end UMetaheur
